import Mathlib

/-
Verification development for the GSDMM clustering engine
(`gsdmm/mgp_array.py`, class `MovieGroupProcess`).

The Python source is shallowly embedded below:
* machine floats are idealized as rationals; the transcendental
  functions `np.log` / `np.exp` are abstracted as function parameters
  `lg ex : Rat → Rat`, so every theorem about the scoring pipeline holds
  for an arbitrary interpretation of them;
* the numpy integer arrays `cluster_doc_count` (`m_z`),
  `cluster_word_count` (`n_z`) and the dense `K × V` matrix
  `cluster_word_distribution` (`n_z_w`) become `List Int` /
  `List (List Int)`;
* a document is its bag-of-words form: a list of
  `(token_id, occurrence_count)` pairs, as produced by
  `Dictionary.doc2bow` (the `Dictionary` class is the external gensim
  vocabulary; `doc2bow` yields pairwise-distinct token ids below `V`);
* the categorical draw `_sample(p)` (`np.random.multinomial`) is
  abstracted as an oracle `draws : Nat → Nat` giving the result of the
  t-th draw of a run; `_sample` always returns an index below `K`
  (the vector handed to it has length `K`), which theorems assume as
  `∀ t, draws t < K`;
* Python exceptions become an `Except` result; the tuple unpacking
  `idx, cnt = zip(*doc)` raises on an empty document, which is the only
  failure inside `fit` / `score`.
-/

/-- Bag-of-words document: `(token_id, occurrence_count)` pairs. -/
abbrev Doc := List (Nat × Nat)

/-- Runtime failures of the embedded engine. `unpackError` is the
`ValueError` raised by `idx, cnt = zip(*doc)` on an empty document. -/
inductive MgpErr where
  | unpackError
deriving DecidableEq

/-- Add `d` to entry `i` of an integer list, the embedding of an
in-place `arr[i] += d` on a numpy array (out-of-range indices leave the
list unchanged; the source never indexes out of range). -/
def updAt (l : List Int) (i : Nat) (d : Int) : List Int :=
  l.set i (l.getD i 0 + d)

/-- Mutable state of a `fit` run: `cluster_doc_count` (`m_z`),
`cluster_word_count` (`n_z`), the dense `K × V` matrix
`cluster_word_distribution` (`n_z_w`), and the per-document label
assignment `d_z`. -/
structure FitState where
  m_z : List Int
  n_z : List Int
  n_z_w : List (List Int)
  d_z : List Nat
deriving DecidableEq

/-- Embedding of `n_z_w[z, idx] += sign * cnt` (mgp_array.py lines 162,
176, 190): add `sign * cnt` to row `z` at each token id of `doc`.  This
coincides with the numpy fancy-indexed update because `doc2bow`
documents carry pairwise-distinct token ids. -/
def applyDocRow (w : List (List Int)) (z : Nat) (doc : Doc) (sign : Int) : List (List Int) :=
  w.set z (doc.foldl (fun r ic => updAt r ic.1 (sign * (ic.2 : Int))) (w.getD z []))

/-- Embedding of one step of the initialization loop (lines 154-162):
record label `z` for the document and add the document to cluster `z`.
Note `n_z[z] += len(doc)` adds the number of *pairs* of the
bag-of-words document, while `n_z_w[z, idx] += cnt` adds the occurrence
counts. -/
def initDoc (st : FitState) (z : Nat) (doc : Doc) : FitState :=
  ⟨updAt st.m_z z 1,
   updAt st.n_z z (doc.length : Int),
   applyDocRow st.n_z_w z doc 1,
   st.d_z ++ [z]⟩

/-- Embedding of the initialization loop of `fit` (lines 153-162): one
uniform draw per document, then the add-to-cluster updates; the
`idx, cnt = zip(*doc)` at line 161 raises on an empty document. -/
def initClusters (draws : Nat → Nat) : Nat → List Doc → FitState → Except MgpErr (FitState × Nat)
  | t, [], st => .ok (st, t)
  | t, doc :: rest, st =>
    let z := draws t
    if doc.isEmpty then .error .unpackError
    else initClusters draws (t + 1) rest (initDoc st z doc)

/-- Embedding of the inner document loop of one Gibbs pass (lines
167-190), threading the draw counter `t`, the corpus position `i`, and
the running `total_transfers`.  The document is removed from its current
cluster `z_old = d_z[i]`, then `score` is computed and `_sample` draws
the new cluster; the draw oracle stands for that sampled result (the
score vector only influences the distribution of the draw).  The
`idx, cnt = zip(*doc)` at line 175 raises on an empty document. -/
def runPassAux (draws : Nat → Nat) : List Doc → Nat → Nat → FitState → Nat → Except MgpErr (FitState × Nat × Nat)
  | [], t, _, st, tf => .ok (st, tf, t)
  | doc :: rest, t, i, st, tf =>
    if doc.isEmpty then .error .unpackError
    else
      let z_old := st.d_z.getD i 0
      let st1 : FitState :=
        ⟨updAt st.m_z z_old (-1),
         updAt st.n_z z_old (-(doc.length : Int)),
         applyDocRow st.n_z_w z_old doc (-1),
         st.d_z⟩
      let z_new := draws t
      let tf' := if z_new ≠ z_old then tf + 1 else tf
      let st2 : FitState :=
        ⟨updAt st1.m_z z_new 1,
         updAt st1.n_z z_new (doc.length : Int),
         applyDocRow st1.n_z_w z_new doc 1,
         st1.d_z.set i z_new⟩
      runPassAux draws rest (t + 1) (i + 1) st2 tf'

/-- One full Gibbs pass over the corpus; returns the new statistics
state, the pass's `total_transfers` and the advanced draw counter. -/
def runPass (draws : Nat → Nat) (t : Nat) (corpus : List Doc) (st : FitState) : Except MgpErr (FitState × Nat × Nat) :=
  runPassAux draws corpus t 0 st 0

/-- Embedding of `sum([1 for v in m_z if v > 0])` (line 192): the number
of populated clusters. -/
def countPopulated (m_z : List Int) : Nat :=
  m_z.countP (fun v => decide (0 < v))

/-- Embedding of the early-stop test at line 195:
`total_transfers == 0 and cluster_count_new == cluster_count and _iter > 25`. -/
def breakCond (tf ccNew ccPrev iter : Nat) : Bool :=
  tf == 0 && ccNew == ccPrev && decide (25 < iter)

/-- Embedding of the iteration loop `for _iter in range(n_iters)` (lines
164-198).  `fuel` is the number of passes still allowed, `iter` the
current `_iter`, `cc` the `cluster_count` carried from the previous pass
(initially `K`).  Besides the final state it returns the trace of
`(total_transfers, cluster_count_new)` for every executed pass, so the
number of executed passes is the trace's length. -/
def gibbsLoop (draws : Nat → Nat) (corpus : List Doc) : Nat → Nat → Nat → FitState → Nat → Except MgpErr (FitState × List (Nat × Nat))
  | _, _, 0, st, _ => .ok (st, [])
  | t, iter, fuel + 1, st, cc =>
    match runPass draws t corpus st with
    | .error e => .error e
    | .ok (st1, tf, t1) =>
      let ccNew := countPopulated st1.m_z
      if breakCond tf ccNew cc iter then .ok (st1, [(tf, ccNew)])
      else
        match gibbsLoop draws corpus t1 (iter + 1) fuel st1 ccNew with
        | .error e => .error e
        | .ok (st2, tr) => .ok (st2, (tf, ccNew) :: tr)

/-- Result of a `fit` run: the returned per-document labels `d_z`, the
statistics left on the object, and the per-pass trace. -/
structure FitResult where
  labels : List Nat
  state : FitState
  trace : List (Nat × Nat)
deriving DecidableEq

/-- State of a freshly constructed model entering `fit`: zero counters
(from `__init__`, lines 43-44) and the `K × V` zero matrix allocated at
line 146. -/
def fitInitState (K V : Nat) : FitState :=
  ⟨List.replicate K 0, List.replicate K 0,
   List.replicate K (List.replicate V 0), []⟩

/-- Embedding of `MovieGroupProcess.fit` (lines 129-200) on a fresh
model: random initialization of the clusters followed by the Gibbs
iteration loop with initial `cluster_count = K` (line 150); returns
`d_z` together with the final statistics and the pass trace.  The corpus
is the `doc2bow` image of the input texts (`create_dictionary`, an
external gensim `Dictionary` operation, is taken as given). -/
def fitMGP (K V n_iters : Nat) (draws : Nat → Nat) (corpus : List Doc) : Except MgpErr FitResult :=
  match initClusters draws 0 corpus (fitInitState K V) with
  | .error e => .error e
  | .ok (st1, t1) =>
    match gibbsLoop draws corpus t1 0 n_iters st1 K with
    | .error e => .error e
    | .ok (st2, tr) => .ok ⟨st2.d_z, st2, tr⟩

/-- Embedding of the `lN2` computation of `score` (line 230):
`np.log(n_z_w[:, idx] + beta).sum(axis=1)` restricted to one cluster row.
For each `(token_id, cnt)` pair of the document it adds
`log(row[token_id] + beta)` exactly once; the occurrence count `cnt` is
unpacked at line 227 but never used here. -/
def score_lN2 (lg : Rat → Rat) (beta : Rat) (row : List Int) (doc : Doc) : Rat :=
  (doc.map (fun ic => lg ((row.getD ic.1 0 : Rat) + beta))).sum

/-- Embedding of the `lD2` computation of `score` (line 231):
`sum over j in range(1, doc_size + 1) of log(n_z + V * beta + j - 1)`
for one cluster, where `doc_size = len(doc)` is the number of
bag-of-words pairs (line 226). -/
def score_lD2 (lg : Rat → Rat) (beta : Rat) (V : Nat) (nz : Int) (doc_size : Nat) : Rat :=
  ((List.range doc_size).map
    (fun j => lg ((nz : Rat) + (V : Rat) * beta + ((j + 1 : Nat) : Rat) - 1))).sum

/-- Embedding of the unnormalized score vector of `score` (lines
225-232): `p = np.exp(lN1 - lD1 + lN2 - lD2)`, one component per
cluster `z` in `range K`. -/
def scoreP (lg ex : Rat → Rat) (alpha beta : Rat) (K V D : Nat)
    (m_z n_z : List Int) (n_z_w : List (List Int)) (doc : Doc) : List Rat :=
  let lD1 := lg ((D : Rat) - 1 + (K : Rat) * alpha)
  let doc_size := doc.length
  (List.range K).map (fun z =>
    ex (lg ((m_z.getD z 0 : Rat) + alpha) - lD1
        + score_lN2 lg beta (n_z_w.getD z []) doc
        - score_lD2 lg beta V (n_z.getD z 0) doc_size))

/-- Embedding of the normalization step of `score` (lines 234-237):
`pnorm = sum(p); pnorm = pnorm if pnorm > 0 else 1;`
`return [pp / pnorm for pp in p]`.  When the unnormalized vector sums to
zero the divisor silently falls back to `1` and the all-zero vector is
returned unchanged. -/
def normalizeVec (p : List Rat) : List Rat :=
  let pnorm := p.sum
  let pnorm := if 0 < pnorm then pnorm else 1
  p.map (fun pp => pp / pnorm)

/-- Probability vector returned by `score` on a nonempty document. -/
def scoreVec (lg ex : Rat → Rat) (alpha beta : Rat) (K V D : Nat)
    (m_z n_z : List Int) (n_z_w : List (List Int)) (doc : Doc) : List Rat :=
  normalizeVec (scoreP lg ex alpha beta K V D m_z n_z n_z_w doc)

/-- Embedding of `MovieGroupProcess.score` (lines 202-237).  The
statistics are read-only inputs and only the probability vector is
produced, mirroring that the source mutates nothing.  The unpacking
`idx, cnt = zip(*doc)` at line 227 raises on an empty document. -/
def score (lg ex : Rat → Rat) (alpha beta : Rat) (K V D : Nat)
    (m_z n_z : List Int) (n_z_w : List (List Int)) (doc : Doc) : Except MgpErr (List Rat) :=
  if doc.isEmpty then .error .unpackError
  else .ok (scoreVec lg ex alpha beta K V D m_z n_z n_z_w doc)

/-- Interior loop of `np_argmax`: `i` is the index of the next list
element, `bi`/`bv` the index and value of the running best; the running
best is replaced only on a strictly larger value, so the first maximum
wins. -/
def argmaxAux : List Rat → Nat → Nat → Rat → Nat
  | [], _, bi, _ => bi
  | x :: xs, i, bi, bv =>
    if bv < x then argmaxAux xs (i + 1) i x else argmaxAux xs (i + 1) bi bv

/-- Embedding of `np.argmax` on a rational vector: index of the first
occurrence of the maximal entry (numpy returns the first maximum). -/
def np_argmax : List Rat → Nat
  | [] => 0
  | x :: xs => argmaxAux xs 1 0 x

/-- Embedding of Python's `max` on a nonempty list of floats. -/
def pyMax : List Rat → Rat
  | [] => 0
  | x :: xs => xs.foldl max x

/-- Embedding of `MovieGroupProcess.choose_best_label` (lines 239-248):
convert the token stream through the fitted vocabulary
(`self.dictionary.doc2bow`, abstracted as the external function `d2b`),
score it against the current read-only statistics, and return
`(np.argmax(p), max(p))`. -/
def choose_best_label (d2b : List String → Doc) (lg ex : Rat → Rat) (alpha beta : Rat)
    (K V D : Nat) (m_z n_z : List Int) (n_z_w : List (List Int)) (doc : List String) :
    Except MgpErr (Nat × Rat) :=
  match score lg ex alpha beta K V D m_z n_z n_z_w (d2b doc) with
  | .error e => .error e
  | .ok p => .ok (np_argmax p, pyMax p)

/-- Field state of a `MovieGroupProcess` object as set by `__init__`
and serialized by `save`. -/
structure MGPModel where
  K : Nat
  alpha : Rat
  beta : Rat
  n_iters : Nat
  cluster_doc_count : List Int
  cluster_word_count : List Int
  cluster_word_distribution : List (List Int)
deriving DecidableEq

/-- Embedding of `MovieGroupProcess.__init__` (lines 9-45): the four
configuration values are stored unconditionally — the constructor body
contains no validation and no failure path — and the per-cluster
counters are zero-initialized (the initial list of empty per-cluster
dicts is modelled as empty rows). -/
def movieGroupProcess_init (K : Nat) (alpha beta : Rat) (n_iters : Nat) : MGPModel :=
  ⟨K, alpha, beta, n_iters,
   List.replicate K 0, List.replicate K 0, List.replicate K []⟩

/-- Values writable through `np.save`, as used by `save`. -/
inductive NpyVal where
  | nat : Nat → NpyVal
  | rat : Rat → NpyVal
  | ints : List Int → NpyVal
  | mat : List (List Int) → NpyVal
deriving DecidableEq

/-- Filesystem state: the existing directories and the existing files
with their contents (a file is a sequence of `np.save`d values). -/
structure FileSys where
  dirs : List String
  files : List (String × List NpyVal)
deriving DecidableEq

/-- Failure modes of `save`: `fileExistsError` is Python's builtin
`FileExistsError` raised by `os.mkdir`; `pathAlreadyExistsError` is the
distinct error class the specification prescribes (it never occurs in
the source). -/
inductive SaveErr where
  | fileExistsError
  | pathAlreadyExistsError
deriving DecidableEq

/-- Embedding of `os.path.isdir`. -/
def os_path_isdir (fs : FileSys) (p : String) : Bool :=
  fs.dirs.contains p

/-- Whether a path exists in the filesystem (as directory or file);
`os.mkdir` raises `FileExistsError` exactly on such paths. -/
def pathExists (fs : FileSys) (p : String) : Bool :=
  fs.dirs.contains p || (fs.files.map Prod.fst).contains p

/-- Embedding of `MovieGroupProcess.save` (lines 70-89).  The
`os.path.isdir` check at line 76 only prints a message and does *not*
return, so control always reaches `os.mkdir` at line 79, which raises
`FileExistsError` when the target exists — before anything is written.
Otherwise the directory is created and `gsdmm.npy` receives, in order,
`K`, `alpha`, `beta`, `cluster_doc_count`, `cluster_word_count`,
`cluster_word_distribution`; the vocabulary's own text serialization
(`dictionary.save_as_text`, external) is written as `dictionary.npy`
with abstracted content `dictText`.  The pair returned is the resulting
filesystem together with the raised error, if any. -/
def save (fs : FileSys) (m : MGPModel) (dictText : List NpyVal) (folder : String) :
    FileSys × Option SaveErr :=
  if pathExists fs folder then (fs, some .fileExistsError)
  else
    ({ dirs := fs.dirs ++ [folder],
       files := fs.files
         ++ [(folder ++ "/gsdmm.npy",
              [NpyVal.nat m.K, NpyVal.rat m.alpha, NpyVal.rat m.beta,
               NpyVal.ints m.cluster_doc_count, NpyVal.ints m.cluster_word_count,
               NpyVal.mat m.cluster_word_distribution])]
         ++ [(folder ++ "/dictionary.npy", dictText)] },
     none)

/-- Modelled from the spec: `doc_size` of a document is the sum of its
occurrence counts (spec section 3); the source instead uses `len(doc)`,
the number of bag-of-words pairs. -/
def specDocSize (d : Doc) : Nat :=
  (d.map Prod.snd).sum

/-- Modelled from the spec: the total number of token occurrences in a
corpus, `sum(doc_size over all documents)`. -/
def specTotalOccurrences (corpus : List Doc) : Nat :=
  (corpus.map specDocSize).sum

/-- Modelled from the spec: the occurrence-weighted `lN2` term of spec
section 4.2 — each `(token_id, cnt)` pair contributes
`cnt * log(word_distribution[z][token_id] + beta)`. -/
def specLN2Weighted (lg : Rat → Rat) (beta : Rat) (row : List Int) (doc : Doc) : Rat :=
  (doc.map (fun ic => (ic.2 : Rat) * lg ((row.getD ic.1 0 : Rat) + beta))).sum

/-- Break-test of pass `j` of a trace: `trBreakAt cc0 tr iter0 j` is the
value of `breakCond` evaluated at the end of pass `j`, where `cc0` is
the `cluster_count` in force before the first traced pass and `iter0`
the `_iter` of the first traced pass. -/
def trBreakAt (cc0 : Nat) (tr : List (Nat × Nat)) (iter0 j : Nat) : Bool :=
  breakCond (tr.getD j (0, 0)).1 (tr.getD j (0, 0)).2
    (if j = 0 then cc0 else (tr.getD (j - 1) (0, 0)).2) (iter0 + j)

/-- Convergence contract of the iteration loop for a run of at most
`n_iters` passes starting from `cluster_count = cc0`: the loop executes
at most `n_iters` passes, no non-final pass satisfies the break test,
and a run shorter than `n_iters` ends on a pass satisfying it. -/
def ConvergenceTraceOk (n_iters cc0 : Nat) (tr : List (Nat × Nat)) : Prop :=
  tr.length ≤ n_iters ∧
  (∀ j, j + 1 < tr.length → trBreakAt cc0 tr 0 j = false) ∧
  (tr.length < n_iters → 0 < tr.length ∧ trBreakAt cc0 tr 0 (tr.length - 1) = true)

/-! ### List helper lemmas -/

theorem updAt_length (l : List Int) (i : Nat) (d : Int) :
    (updAt l i d).length = l.length := by
  simp [updAt]

theorem updAt_sum (l : List Int) (i : Nat) (d : Int) (h : i < l.length) :
    (updAt l i d).sum = l.sum + d := by
  induction l generalizing i with
  | nil => simp at h
  | cons x xs ih =>
    cases i with
    | zero => simp [updAt]; ring
    | succ n =>
      have hn : n < xs.length := by simpa using h
      have ihn := ih n hn
      simp only [updAt, List.getD_cons_succ] at ihn ⊢
      have hset : (x :: xs).set (n + 1) (xs.getD n 0 + d) = x :: xs.set n (xs.getD n 0 + d) := rfl
      rw [hset, List.sum_cons, ihn]
      simp [List.sum_cons]
      ring

theorem updAt_zero (l : List Int) (i : Nat) : updAt l i 0 = l := by
  induction l generalizing i with
  | nil => simp [updAt]
  | cons x xs ih =>
    cases i with
    | zero => simp [updAt]
    | succ n => simpa [updAt] using ih n

theorem updAt_updAt (l : List Int) (i : Nat) (a b : Int) :
    updAt (updAt l i a) i b = updAt l i (a + b) := by
  induction l generalizing i with
  | nil => simp [updAt]
  | cons x xs ih =>
    cases i with
    | zero => simp [updAt, add_assoc]
    | succ n => simpa [updAt] using ih n

theorem getD_all_zero (l : List Nat) (h : ∀ x ∈ l, x = 0) (i : Nat) :
    l.getD i 0 = 0 := by
  induction l generalizing i with
  | nil => simp
  | cons x xs ih =>
    cases i with
    | zero => simpa using h x (by simp)
    | succ n => simpa using ih (fun y hy => h y (by simp [hy])) n

theorem getD_lt_of_forall_lt (l : List Nat) (K : Nat) (h : ∀ x ∈ l, x < K)
    (hK : 0 < K) (i : Nat) : l.getD i 0 < K := by
  induction l generalizing i with
  | nil => simpa using hK
  | cons x xs ih =>
    cases i with
    | zero => simpa using h x (by simp)
    | succ n => simpa using ih (fun y hy => h y (by simp [hy])) n

theorem set_forall_of_forall {K : Nat} (l : List Nat) (v : Nat)
    (h : ∀ x ∈ l, x < K) (hv : v < K) (i : Nat) : ∀ x ∈ l.set i v, x < K := by
  intro x hx
  rcases List.mem_or_eq_of_mem_set hx with hmem | rfl
  · exact h x hmem
  · exact hv

theorem set_all_zero (l : List Nat) (h : ∀ x ∈ l, x = 0) (i : Nat) :
    ∀ x ∈ l.set i 0, x = 0 := by
  intro x hx
  rcases List.mem_or_eq_of_mem_set hx with hmem | rfl
  · exact h x hmem
  · rfl

theorem list_sum_map_div (l : List Rat) (c : Rat) :
    (l.map (fun x => x / c)).sum = l.sum / c := by
  induction l with
  | nil => simp
  | cons x xs ih => simp [ih, add_div]

theorem le_foldl_max (xs : List Rat) : ∀ b : Rat, b ≤ xs.foldl max b := by
  induction xs with
  | nil => intro b; simp
  | cons x xs ih =>
    intro b
    calc b ≤ max b x := le_max_left b x
    _ ≤ xs.foldl max (max b x) := ih (max b x)
    _ = (x :: xs).foldl max b := rfl

theorem mem_le_foldl_max (xs : List Rat) : ∀ (b y : Rat), y ∈ xs → y ≤ xs.foldl max b := by
  induction xs with
  | nil => intro b y hy; simp at hy
  | cons x xs ih =>
    intro b y hy
    rcases List.mem_cons.mp hy with rfl | hmem
    · calc y ≤ max b y := le_max_right b y
      _ ≤ xs.foldl max (max b y) := le_foldl_max xs (max b y)
      _ = (y :: xs).foldl max b := rfl
    · exact ih (max b x) y hmem

theorem argmaxAux_spec : ∀ (xs : List Rat) (i bi : Nat) (bv : Rat),
    (argmaxAux xs i bi bv = bi ∧ xs.foldl max bv = bv) ∨
    (∃ j, j < xs.length ∧ argmaxAux xs i bi bv = i + j ∧
      xs.getD j 0 = xs.foldl max bv ∧ bv < xs.foldl max bv ∧
      ∀ k, k < j → xs.getD k 0 < xs.foldl max bv) := by
  intro xs
  induction xs with
  | nil => intro i bi bv; left; exact ⟨rfl, rfl⟩
  | cons x xs ih =>
    intro i bi bv
    by_cases hlt : bv < x
    · have hfold : (x :: xs).foldl max bv = xs.foldl max x := by
        simp [max_eq_right (le_of_lt hlt)]
      have haux : argmaxAux (x :: xs) i bi bv = argmaxAux xs (i + 1) i x := by
        simp [argmaxAux, hlt]
      rcases ih (i + 1) i x with ⟨h1, h2⟩ | ⟨j, hj, hr, hget, hbv, hprev⟩
      · right
        refine ⟨0, Nat.succ_pos _, ?_, ?_, ?_, ?_⟩
        · rw [haux, h1, Nat.add_zero]
        · rw [hfold, h2]; simp
        · rw [hfold, h2]; exact hlt
        · intro k hk; exact absurd hk (Nat.not_lt_zero k)
      · right
        refine ⟨j + 1, ?_, ?_, ?_, ?_, ?_⟩
        · simpa using Nat.succ_lt_succ hj
        · rw [haux, hr]; omega
        · rw [hfold]; simpa using hget
        · rw [hfold]; exact lt_trans hlt hbv
        · intro k hk
          cases k with
          | zero => rw [hfold]; simpa using hbv
          | succ k2 => rw [hfold]; simpa using hprev k2 (Nat.lt_of_succ_lt_succ hk)
    · have hfold : (x :: xs).foldl max bv = xs.foldl max bv := by
        simp [max_eq_left (le_of_not_lt hlt)]
      have haux : argmaxAux (x :: xs) i bi bv = argmaxAux xs (i + 1) bi bv := by
        simp [argmaxAux, hlt]
      rcases ih (i + 1) bi bv with ⟨h1, h2⟩ | ⟨j, hj, hr, hget, hbv, hprev⟩
      · left; exact ⟨by rw [haux, h1], by rw [hfold, h2]⟩
      · right
        refine ⟨j + 1, ?_, ?_, ?_, ?_, ?_⟩
        · simpa using Nat.succ_lt_succ hj
        · rw [haux, hr]; omega
        · rw [hfold]; simpa using hget
        · rw [hfold]; exact hbv
        · intro k hk
          cases k with
          | zero =>
            rw [hfold]
            have hx : (x :: xs).getD 0 0 = x := rfl
            rw [hx]
            exact lt_of_le_of_lt (le_of_not_lt hlt) hbv
          | succ k2 => rw [hfold]; simpa using hprev k2 (Nat.lt_of_succ_lt_succ hk)

theorem np_argmax_spec (l : List Rat) (h : l ≠ []) :
    np_argmax l < l.length ∧ l.getD (np_argmax l) 0 = pyMax l ∧
    (∀ x ∈ l, x ≤ pyMax l) ∧ ∀ k, k < np_argmax l → l.getD k 0 < pyMax l := by
  match l with
  | [] => exact absurd rfl h
  | x :: xs =>
    have hargmax : np_argmax (x :: xs) = argmaxAux xs 1 0 x := rfl
    have hmax : pyMax (x :: xs) = xs.foldl max x := rfl
    rcases argmaxAux_spec xs 1 0 x with ⟨h1, h2⟩ | ⟨j, hj, hr, hget, hbv, hprev⟩
    · refine ⟨?_, ?_, ?_, ?_⟩
      · rw [hargmax, h1]; simp
      · rw [hargmax, h1, hmax, h2]; simp
      · intro y hy
        rw [hmax]
        rcases List.mem_cons.mp hy with rfl | hmem
        · exact le_foldl_max xs y
        · exact mem_le_foldl_max xs x y hmem
      · intro k hk
        rw [hargmax, h1] at hk
        exact absurd hk (Nat.not_lt_zero k)
    · refine ⟨?_, ?_, ?_, ?_⟩
      · rw [hargmax, hr]; simp; omega
      · rw [hargmax, hr, hmax]
        have : (x :: xs).getD (1 + j) 0 = xs.getD j 0 := by
          rw [Nat.add_comm]; simp
        rw [this, hget]
      · intro y hy
        rw [hmax]
        rcases List.mem_cons.mp hy with rfl | hmem
        · exact le_foldl_max xs y
        · exact mem_le_foldl_max xs x y hmem
      · intro k hk
        rw [hargmax, hr] at hk
        rw [hmax]
        cases k with
        | zero =>
          have hx : (x :: xs).getD 0 0 = x := rfl
          rw [hx]; exact hbv
        | succ k2 =>
          have : (x :: xs).getD (k2 + 1) 0 = xs.getD k2 0 := by simp
          rw [this]
          exact hprev k2 (by omega)

/-! ### Lemmas about the Gibbs iteration loop -/

theorem trBreakAt_cons (cc0 tf cc1 iter0 : Nat) (tr : List (Nat × Nat)) (k : Nat) :
    trBreakAt cc0 ((tf, cc1) :: tr) iter0 (k + 1) = trBreakAt cc1 tr (iter0 + 1) k := by
  cases k with
  | zero => simp [trBreakAt, Nat.add_comm]
  | succ k2 =>
    have h1 : ((tf, cc1) :: tr).getD (k2 + 2) (0, 0) = tr.getD (k2 + 1) (0, 0) := by simp
    have h2 : ((tf, cc1) :: tr).getD (k2 + 1) (0, 0) = tr.getD k2 (0, 0) := by simp
    have h3 : iter0 + (k2 + 2) = iter0 + 1 + (k2 + 1) := by omega
    simp only [trBreakAt, h1, h2, h3]
    simp

theorem gibbsLoop_spec (draws : Nat → Nat) (corpus : List Doc) :
    ∀ (fuel t iter cc : Nat) (st st' : FitState) (tr : List (Nat × Nat)),
    gibbsLoop draws corpus t iter fuel st cc = .ok (st', tr) →
    tr.length ≤ fuel ∧
    (∀ j, j + 1 < tr.length → trBreakAt cc tr iter j = false) ∧
    (tr.length < fuel → 0 < tr.length ∧ trBreakAt cc tr iter (tr.length - 1) = true) := by
  intro fuel
  induction fuel with
  | zero =>
    intro t iter cc st st' tr h
    simp only [gibbsLoop] at h
    cases h
    refine ⟨Nat.le_refl 0, ?_, ?_⟩
    · intro j hj; simp at hj
    · intro hlen; simp at hlen
  | succ fuel ih =>
    intro t iter cc st st' tr h
    simp only [gibbsLoop] at h
    cases hrp : runPass draws t corpus st with
    | error e => rw [hrp] at h; simp at h
    | ok res =>
      obtain ⟨st1, tf, t1⟩ := res
      rw [hrp] at h
      simp only at h
      by_cases hbc : breakCond tf (countPopulated st1.m_z) cc iter = true
      · rw [if_pos hbc] at h
        cases h
        refine ⟨by simp, ?_, ?_⟩
        · intro j hj; simp at hj
        · intro _
          refine ⟨by simp, ?_⟩
          simpa [trBreakAt, breakCond] using hbc
      · rw [if_neg hbc] at h
        cases hrec : gibbsLoop draws corpus t1 (iter + 1) fuel st1 (countPopulated st1.m_z) with
        | error e => rw [hrec] at h; simp at h
        | ok res2 =>
          obtain ⟨st2, tr2⟩ := res2
          rw [hrec] at h
          simp only at h
          cases h
          obtain ⟨ihlen, ihmid, ihlast⟩ := ih _ _ _ _ _ _ hrec
          refine ⟨by simpa using Nat.succ_le_succ ihlen, ?_, ?_⟩
          · intro j hj
            cases j with
            | zero =>
              simpa [trBreakAt] using eq_false_of_ne_true hbc
            | succ k =>
              rw [trBreakAt_cons]
              exact ihmid k (by simpa using Nat.lt_of_succ_lt_succ hj)
          · intro hlen
            have hlen2 : tr2.length < fuel := by simpa using Nat.lt_of_succ_lt_succ hlen
            obtain ⟨hpos, hbrk⟩ := ihlast hlen2
            refine ⟨by simp, ?_⟩
            obtain ⟨m, hm⟩ := Nat.exists_eq_succ_of_ne_zero (Nat.pos_iff_ne_zero.mp hpos)
            have hlen3 : ((tf, countPopulated st1.m_z) :: tr2).length - 1 = m + 1 := by
              simp [hm]
            rw [hlen3, trBreakAt_cons]
            have : tr2.length - 1 = m := by omega
            rw [this] at hbrk
            exact hbrk

theorem runPassAux_inv (draws : Nat → Nat) (K : Nat) (hdr : ∀ t2, draws t2 < K) :
    ∀ (docs : List Doc) (t i tf : Nat) (st st' : FitState) (tf' t' : Nat),
    runPassAux draws docs t i st tf = .ok (st', tf', t') →
    st.m_z.length = K → (∀ l ∈ st.d_z, l < K) →
    st'.m_z.length = K ∧ st'.m_z.sum = st.m_z.sum ∧
    st'.d_z.length = st.d_z.length ∧ (∀ l ∈ st'.d_z, l < K) := by
  intro docs
  induction docs with
  | nil =>
    intro t i tf st st' tf' t' h hlen hdz
    simp only [runPassAux] at h
    cases h
    exact ⟨hlen, rfl, rfl, hdz⟩
  | cons doc rest ih =>
    intro t i tf st st' tf' t' h hlen hdz
    simp only [runPassAux] at h
    by_cases hemp : doc.isEmpty
    · rw [if_pos hemp] at h; simp at h
    · rw [if_neg hemp] at h
      have hK : 0 < K := Nat.lt_of_le_of_lt (Nat.zero_le (draws 0)) (hdr 0)
      have hzold : st.d_z.getD i 0 < K := getD_lt_of_forall_lt st.d_z K hdz hK i
      have hznew : draws t < K := hdr t
      have hlen1 : (updAt st.m_z (st.d_z.getD i 0) (-1)).length = K := by
        rw [updAt_length]; exact hlen
      have hlen2 : (updAt (updAt st.m_z (st.d_z.getD i 0) (-1)) (draws t) 1).length = K := by
        rw [updAt_length]; exact hlen1
      have hdz2 : ∀ l ∈ st.d_z.set i (draws t), l < K :=
        set_forall_of_forall st.d_z (draws t) hdz hznew i
      obtain ⟨h1, h2, h3, h4⟩ := ih _ _ _ _ _ _ _ h hlen2 hdz2
      refine ⟨h1, ?_, ?_, h4⟩
      · rw [h2, updAt_sum _ _ _ (by rw [hlen1]; exact hznew),
          updAt_sum _ _ _ (by rw [hlen]; exact hzold)]
        ring
      · rw [h3, List.length_set]

theorem gibbsLoop_inv (draws : Nat → Nat) (K : Nat) (hdr : ∀ t2, draws t2 < K) (corpus : List Doc) :
    ∀ (fuel t iter cc : Nat) (st st' : FitState) (tr : List (Nat × Nat)),
    gibbsLoop draws corpus t iter fuel st cc = .ok (st', tr) →
    st.m_z.length = K → (∀ l ∈ st.d_z, l < K) →
    st'.m_z.length = K ∧ st'.m_z.sum = st.m_z.sum ∧
    st'.d_z.length = st.d_z.length ∧ (∀ l ∈ st'.d_z, l < K) := by
  intro fuel
  induction fuel with
  | zero =>
    intro t iter cc st st' tr h hlen hdz
    simp only [gibbsLoop] at h
    cases h
    exact ⟨hlen, rfl, rfl, hdz⟩
  | succ fuel ih =>
    intro t iter cc st st' tr h hlen hdz
    simp only [gibbsLoop] at h
    cases hrp : runPass draws t corpus st with
    | error e => rw [hrp] at h; simp at h
    | ok res =>
      obtain ⟨st1, tf, t1⟩ := res
      rw [hrp] at h
      simp only at h
      obtain ⟨p1, p2, p3, p4⟩ := runPassAux_inv draws K hdr corpus _ _ _ _ _ _ _ hrp hlen hdz
      by_cases hbc : breakCond tf (countPopulated st1.m_z) cc iter = true
      · rw [if_pos hbc] at h
        cases h
        exact ⟨p1, p2, p3, p4⟩
      · rw [if_neg hbc] at h
        cases hrec : gibbsLoop draws corpus t1 (iter + 1) fuel st1 (countPopulated st1.m_z) with
        | error e => rw [hrec] at h; simp at h
        | ok res2 =>
          obtain ⟨st2, tr2⟩ := res2
          rw [hrec] at h
          simp only at h
          cases h
          obtain ⟨q1, q2, q3, q4⟩ := ih _ _ _ _ _ _ hrec p1 p4
          exact ⟨q1, by rw [q2, p2], by rw [q3, p3], q4⟩

theorem initClusters_inv (draws : Nat → Nat) (K : Nat) (hdr : ∀ t2, draws t2 < K) :
    ∀ (docs : List Doc) (t : Nat) (st st' : FitState) (t' : Nat),
    initClusters draws t docs st = .ok (st', t') →
    st.m_z.length = K → (∀ l ∈ st.d_z, l < K) →
    st'.m_z.length = K ∧ st'.m_z.sum = st.m_z.sum + (docs.length : Int) ∧
    st'.d_z.length = st.d_z.length + docs.length ∧ (∀ l ∈ st'.d_z, l < K) := by
  intro docs
  induction docs with
  | nil =>
    intro t st st' t' h hlen hdz
    simp only [initClusters] at h
    cases h
    exact ⟨hlen, by simp, by simp, hdz⟩
  | cons doc rest ih =>
    intro t st st' t' h hlen hdz
    simp only [initClusters] at h
    by_cases hemp : doc.isEmpty
    · rw [if_pos hemp] at h; simp at h
    · rw [if_neg hemp] at h
      have hznew : draws t < K := hdr t
      have hlen1 : (initDoc st (draws t) doc).m_z.length = K := by
        simp only [initDoc]; rw [updAt_length]; exact hlen
      have hdz1 : ∀ l ∈ (initDoc st (draws t) doc).d_z, l < K := by
        simp only [initDoc]
        intro l hl
        rcases List.mem_append.mp hl with hmem | hmem
        · exact hdz l hmem
        · simp at hmem; omega
      obtain ⟨h1, h2, h3, h4⟩ := ih _ _ _ _ h hlen1 hdz1
      refine ⟨h1, ?_, ?_, h4⟩
      · rw [h2]
        simp only [initDoc]
        rw [updAt_sum _ _ _ (by rw [hlen]; exact hznew)]
        simp
        ring
      · rw [h3]
        simp [initDoc]
        omega

theorem runPassAux_zero_draws (draws : Nat → Nat) (h0 : ∀ t2, draws t2 = 0) :
    ∀ (docs : List Doc) (t i tf : Nat) (st st' : FitState) (tf' t' : Nat),
    runPassAux draws docs t i st tf = .ok (st', tf', t') →
    (∀ l ∈ st.d_z, l = 0) →
    st'.m_z = st.m_z ∧ tf' = tf ∧ (∀ l ∈ st'.d_z, l = 0) := by
  intro docs
  induction docs with
  | nil =>
    intro t i tf st st' tf' t' h hdz
    simp only [runPassAux] at h
    cases h
    exact ⟨rfl, rfl, hdz⟩
  | cons doc rest ih =>
    intro t i tf st st' tf' t' h hdz
    simp only [runPassAux] at h
    by_cases hemp : doc.isEmpty
    · rw [if_pos hemp] at h; simp at h
    · rw [if_neg hemp] at h
      have hzold : st.d_z.getD i 0 = 0 := getD_all_zero st.d_z hdz i
      rw [h0 t, hzold] at h
      have hmz : updAt (updAt st.m_z 0 (-1)) 0 1 = st.m_z := by
        rw [updAt_updAt]
        norm_num
        exact updAt_zero st.m_z 0
      rw [hmz] at h
      have htf : (if (0 : Nat) ≠ 0 then tf + 1 else tf) = tf := by simp
      rw [htf] at h
      obtain ⟨q1, q2, q3⟩ := ih _ _ _ _ _ _ _ h (set_all_zero st.d_z hdz i)
      exact ⟨q1, q2, q3⟩

theorem gibbsLoop_zero_draws_stable (draws : Nat → Nat) (corpus : List Doc)
    (h0 : ∀ t2, draws t2 = 0) :
    ∀ (fuel t iter : Nat) (st st' : FitState) (tr : List (Nat × Nat)),
    gibbsLoop draws corpus t iter fuel st (countPopulated st.m_z) = .ok (st', tr) →
    (∀ l ∈ st.d_z, l = 0) →
    tr.length = min fuel (27 - min iter 26) := by
  intro fuel
  induction fuel with
  | zero =>
    intro t iter st st' tr h hdz
    simp only [gibbsLoop] at h
    cases h
    simp
  | succ fuel ih =>
    intro t iter st st' tr h hdz
    simp only [gibbsLoop] at h
    cases hrp : runPass draws t corpus st with
    | error e => rw [hrp] at h; simp at h
    | ok res =>
      obtain ⟨st1, tf, t1⟩ := res
      rw [hrp] at h
      simp only at h
      obtain ⟨p1, p2, p3⟩ := runPassAux_zero_draws draws h0 corpus _ _ _ _ _ _ _ hrp hdz
      have hcc : countPopulated st1.m_z = countPopulated st.m_z := by rw [p1]
      have hbc : breakCond tf (countPopulated st1.m_z) (countPopulated st.m_z) iter
          = decide (25 < iter) := by
        simp [breakCond, p2, hcc]
      by_cases hiter : 25 < iter
      · have : breakCond tf (countPopulated st1.m_z) (countPopulated st.m_z) iter = true := by
          rw [hbc]; simpa using hiter
        rw [if_pos this] at h
        cases h
        have : min iter 26 = 26 := by omega
        rw [this]
        simp
      · have : breakCond tf (countPopulated st1.m_z) (countPopulated st.m_z) iter = false := by
          rw [hbc]; simpa using hiter
        rw [if_neg (by rw [this]; simp)] at h
        cases hrec : gibbsLoop draws corpus t1 (iter + 1) fuel st1 (countPopulated st1.m_z) with
        | error e => rw [hrec] at h; simp at h
        | ok res2 =>
          obtain ⟨st2, tr2⟩ := res2
          rw [hrec] at h
          simp only at h
          cases h
          have hlen2 := ih _ _ _ _ _ hrec p3
          simp only [List.length_cons, hlen2]
          omega

theorem gibbsLoop_zero_draws_start (draws : Nat → Nat) (corpus : List Doc)
    (h0 : ∀ t2, draws t2 = 0) :
    ∀ (fuel t cc : Nat) (st st' : FitState) (tr : List (Nat × Nat)),
    gibbsLoop draws corpus t 0 fuel st cc = .ok (st', tr) →
    (∀ l ∈ st.d_z, l = 0) →
    tr.length = min fuel 27 := by
  intro fuel
  cases fuel with
  | zero =>
    intro t cc st st' tr h hdz
    simp only [gibbsLoop] at h
    cases h
    simp
  | succ fuel =>
    intro t cc st st' tr h hdz
    simp only [gibbsLoop] at h
    cases hrp : runPass draws t corpus st with
    | error e => rw [hrp] at h; simp at h
    | ok res =>
      obtain ⟨st1, tf, t1⟩ := res
      rw [hrp] at h
      simp only at h
      obtain ⟨p1, p2, p3⟩ := runPassAux_zero_draws draws h0 corpus _ _ _ _ _ _ _ hrp hdz
      have hbc : breakCond tf (countPopulated st1.m_z) cc 0 = false := by
        simp [breakCond]
      rw [if_neg (by rw [hbc]; simp)] at h
      cases hrec : gibbsLoop draws corpus t1 1 fuel st1 (countPopulated st1.m_z) with
      | error e => rw [hrec] at h; simp at h
      | ok res2 =>
        obtain ⟨st2, tr2⟩ := res2
        rw [hrec] at h
        simp only at h
        cases h
        have hlen2 := gibbsLoop_zero_draws_stable draws corpus h0 fuel _ _ _ _ _ hrec p3
        simp only [List.length_cons, hlen2]
        omega

theorem initClusters_zero_draws (draws : Nat → Nat) (h0 : ∀ t2, draws t2 = 0) :
    ∀ (docs : List Doc) (t : Nat) (st st' : FitState) (t' : Nat),
    initClusters draws t docs st = .ok (st', t') →
    (∀ l ∈ st.d_z, l = 0) → ∀ l ∈ st'.d_z, l = 0 := by
  intro docs
  induction docs with
  | nil =>
    intro t st st' t' h hdz
    simp only [initClusters] at h
    cases h
    exact hdz
  | cons doc rest ih =>
    intro t st st' t' h hdz
    simp only [initClusters] at h
    by_cases hemp : doc.isEmpty
    · rw [if_pos hemp] at h; simp at h
    · rw [if_neg hemp] at h
      refine ih _ _ _ _ h ?_
      simp only [initDoc]
      intro l hl
      rcases List.mem_append.mp hl with hmem | hmem
      · exact hdz l hmem
      · simp [h0 t] at hmem
        exact hmem

/-! ### Claim theorems -/

/-- C1 (code bug): the claim (and spec section 4.2) requires the `lN2`
term to weight each log addend by the pair's occurrence count, but the
source's `np.log(n_z_w[:, idx] + beta).sum(axis=1)` (mgp_array.py line
230) adds `log(count + beta)` once per distinct token and ignores `cnt`.
With `log` read as the identity, `beta = 1`, cluster row `[0]` and the
document `[(0, 2)]` (token 0 occurring twice), the code's term is `1`
while the occurrence-weighted term of the claim is `2`. -/
theorem score_lN2_ignores_occurrence_counts :
    score_lN2 (fun x => x) 1 [0] [(0, 2)] = 1 ∧
    specLN2Weighted (fun x => x) 1 [0] [(0, 2)] = 2 ∧
    score_lN2 (fun x => x) 1 [0] [(0, 2)]
      ≠ specLN2Weighted (fun x => x) 1 [0] [(0, 2)] := by
  refine ⟨by norm_num [score_lN2], by norm_num [specLN2Weighted], ?_⟩
  norm_num [score_lN2, specLN2Weighted]

/-- C2 (code bug): after the run `fitMGP 1 1 1` on the single document
`[(0, 2)]` (token 0 occurring twice), the final statistics have
`word_distribution[0]` summing to `2` while `word_count[0] = 1`,
because `fit` adds `len(doc)` — the number of bag-of-words pairs — to
`n_z` (lines 159, 173, 188) but adds the occurrence counts to `n_z_w`
(lines 162, 176, 190); consequently `sum(word_count) = 1` differs from
the corpus's total token occurrences `2`, violating the claimed
invariants. -/
theorem fit_word_count_occurrence_mismatch :
    fitMGP 1 1 1 (fun _ => 0) [[(0, 2)]]
      = .ok ⟨[0], ⟨[1], [1], [[2]], [0]⟩, [(0, 1)]⟩ ∧
    (([[2]] : List (List Int)).getD 0 []).sum = 2 ∧
    ([1] : List Int).sum = 1 ∧
    specTotalOccurrences [[(0, 2)]] = 2 ∧
    (2 : Int) ≠ 1 := by
  exact ⟨rfl, by decide, by decide, by decide, by decide⟩

/-- C3: a `fit` run executes at most `n_iters` passes; a pass is the
last one before `n_iters` is exhausted exactly when it satisfies the
break test `total_transfers == 0 and cluster_count_new == cluster_count
and _iter > 25` (no earlier pass satisfies it, and an early-stopped
run's final pass does); and when `K = 1` (so every draw returns label
0) the run executes exactly `min n_iters 27` passes — it converges at
pass index 26, the 27th pass, whenever `n_iters` allows it, and never
exceeds `n_iters`. -/
theorem fit_convergence_behavior (K V n_iters : Nat) (draws : Nat → Nat)
    (corpus : List Doc) (r : FitResult)
    (hok : fitMGP K V n_iters draws corpus = .ok r) :
    ConvergenceTraceOk n_iters K r.trace ∧
    (K = 1 → (∀ t, draws t < 1) → r.trace.length = min n_iters 27) := by
  unfold fitMGP at hok
  cases hinit : initClusters draws 0 corpus (fitInitState K V) with
  | error e => rw [hinit] at hok; simp at hok
  | ok res =>
    obtain ⟨st1, t1⟩ := res
    rw [hinit] at hok
    simp only at hok
    cases hloop : gibbsLoop draws corpus t1 0 n_iters st1 K with
    | error e => rw [hloop] at hok; simp at hok
    | ok res2 =>
      obtain ⟨st2, tr⟩ := res2
      rw [hloop] at hok
      simp only at hok
      cases hok
      constructor
      · exact gibbsLoop_spec draws corpus n_iters t1 0 K st1 st2 tr hloop
      · intro _ hdr
        have h0 : ∀ t2, draws t2 = 0 := fun t2 => Nat.lt_one_iff.mp (hdr t2)
        have hz : ∀ l ∈ st1.d_z, l = 0 :=
          initClusters_zero_draws draws h0 corpus 0 _ _ _ hinit (by simp [fitInitState])
        exact gibbsLoop_zero_draws_start draws corpus h0 n_iters t1 K st1 st2 tr hloop hz

theorem fit_convergence_behavior_witness :
    ConvergenceTraceOk 2 1 ([(0, 1), (0, 1)] : List (Nat × Nat)) ∧
    (1 = 1 → (∀ t : Nat, (fun _ => 0 : Nat → Nat) t < 1) →
      ([(0, 1), (0, 1)] : List (Nat × Nat)).length = min 2 27) :=
  fit_convergence_behavior 1 1 2 (fun _ => 0) [[(0, 1)]]
    ⟨[0], ⟨[1], [1], [[1]], [0]⟩, [(0, 1), (0, 1)]⟩ rfl

/-- C4: whenever the unnormalized score total is strictly positive, the
vector returned by `score` is the unnormalized vector divided by its
total, sums to exactly 1 in idealized rational arithmetic, and has
length `K` — for every interpretation of `log` and `exp` and every
statistics state. -/
theorem score_normalized_sums_to_one (lg ex : Rat → Rat) (alpha beta : Rat)
    (K V D : Nat) (m_z n_z : List Int) (n_z_w : List (List Int)) (doc : Doc)
    (h1 : doc ≠ []) (h2 : 0 < (scoreP lg ex alpha beta K V D m_z n_z n_z_w doc).sum) :
    score lg ex alpha beta K V D m_z n_z n_z_w doc
      = .ok (scoreVec lg ex alpha beta K V D m_z n_z n_z_w doc) ∧
    (scoreVec lg ex alpha beta K V D m_z n_z n_z_w doc).sum = 1 ∧
    (scoreVec lg ex alpha beta K V D m_z n_z n_z_w doc).length = K := by
  have hne : doc.isEmpty = false := by
    cases doc with
    | nil => exact absurd rfl h1
    | cons a as => rfl
  refine ⟨by simp [score, hne], ?_, ?_⟩
  · simp only [scoreVec, normalizeVec]
    rw [if_pos h2, list_sum_map_div]
    exact div_self (ne_of_gt h2)
  · simp [scoreVec, normalizeVec, scoreP]

theorem score_normalized_sums_to_one_witness :
    (([(0, 1)] : Doc) ≠ []) ∧
    0 < (scoreP (fun _ => 0) (fun _ => 1) 1 1 2 1 1 [0, 0] [0, 0] [[0], [0]] [(0, 1)]).sum ∧
    (score (fun _ => 0) (fun _ => 1) 1 1 2 1 1 [0, 0] [0, 0] [[0], [0]] [(0, 1)]
       = .ok (scoreVec (fun _ => 0) (fun _ => 1) 1 1 2 1 1 [0, 0] [0, 0] [[0], [0]] [(0, 1)]) ∧
     (scoreVec (fun _ => 0) (fun _ => 1) 1 1 2 1 1 [0, 0] [0, 0] [[0], [0]] [(0, 1)]).sum = 1 ∧
     (scoreVec (fun _ => 0) (fun _ => 1) 1 1 2 1 1 [0, 0] [0, 0] [[0], [0]] [(0, 1)]).length = 2) :=
  ⟨by simp, by norm_num [scoreP, score_lN2, score_lD2],
   score_normalized_sums_to_one (fun _ => 0) (fun _ => 1) 1 1 2 1 1 [0, 0] [0, 0]
     [[0], [0]] [(0, 1)] (by simp) (by norm_num [scoreP, score_lN2, score_lD2])⟩

/-- C5 (code bug): when every unnormalized component underflows to zero
(here modelled by the `exp` interpretation that is constantly `0`), the
normalization step of `score` (lines 234-237) silently replaces the
zero divisor by `1` and returns the all-zero probability vector with an
`ok` result — it raises no `DegenerateDistributionError` (no such error
exists in the source), and `fit` then proceeds to the categorical draw
with this degenerate vector. -/
theorem score_degenerate_returns_zero_vector :
    score (fun x => x) (fun _ => 0) 1 1 2 1 1 [0, 0] [0, 0] [[0], [0]] [(0, 1)]
      = .ok [0, 0] ∧
    ([0, 0] : List Rat).sum = 0 := by
  constructor
  · norm_num [score, scoreVec, normalizeVec, scoreP, score_lN2, score_lD2]
    rfl
  · norm_num

/-- C6 counterexample: saving into an existing location does fail and
writes nothing, but the error is Python's builtin `FileExistsError`
raised by `os.mkdir` (line 79) — the `os.path.isdir` branch at line 76
only prints and does not return — not the `PathAlreadyExistsError` the
claim names; at the concrete filesystem owning directory `"model"`, the
raised error differs from `PathAlreadyExistsError`. -/
theorem save_error_is_not_PathAlreadyExists :
    (save ⟨["model"], []⟩ (movieGroupProcess_init 1 1 1 1) [] "model").2
      = some SaveErr.fileExistsError ∧
    (save ⟨["model"], []⟩ (movieGroupProcess_init 1 1 1 1) [] "model").2
      ≠ some SaveErr.pathAlreadyExistsError := by
  exact ⟨rfl, by decide⟩

/-- C6 (amended): for every path whose target location already exists,
`save` fails — with the builtin `FileExistsError` raised by `os.mkdir`,
since the existence check only prints without returning — and writes
nothing (the filesystem is returned unchanged); it never silently skips
the write and continues as if it had persisted. -/
theorem save_existing_path_fails_without_writing (fs : FileSys) (m : MGPModel)
    (dictText : List NpyVal) (folder : String)
    (h : pathExists fs folder = true) :
    save fs m dictText folder = (fs, some SaveErr.fileExistsError) := by
  simp [save, h]

theorem save_existing_path_fails_without_writing_witness :
    pathExists ⟨["model"], []⟩ "model" = true ∧
    save ⟨["model"], []⟩ (movieGroupProcess_init 1 1 1 1) [] "model"
      = (⟨["model"], []⟩, some SaveErr.fileExistsError) :=
  ⟨by decide,
   save_existing_path_fails_without_writing ⟨["model"], []⟩
     (movieGroupProcess_init 1 1 1 1) [] "model" (by decide)⟩

/-- C7 (code bug): `__init__` (lines 9-45) performs no configuration
validation and has no failure path; the invalid configuration
`K = 0, alpha = 0, beta = -1, n_iters = 0` — violating every one of the
claimed bounds `K >= 1`, `alpha > 0`, `beta > 0`, `n_iters >= 1` — is
accepted and stored unchanged instead of failing with an
`InvalidConfigurationError` (no such error exists in the source). -/
theorem init_accepts_invalid_configuration :
    movieGroupProcess_init 0 0 (-1) 0 = ⟨0, 0, -1, 0, [], [], []⟩ ∧
    (0 : Nat) < 1 ∧ ¬ (0 < (0 : Rat)) ∧ ¬ (0 < (-1 : Rat)) ∧ (0 : Nat) < 1 := by
  refine ⟨rfl, by decide, by norm_num, by norm_num, by decide⟩

theorem scoreVec_length (lg ex : Rat → Rat) (alpha beta : Rat) (K V D : Nat)
    (m_z n_z : List Int) (n_z_w : List (List Int)) (doc : Doc) :
    (scoreVec lg ex alpha beta K V D m_z n_z n_z_w doc).length = K := by
  simp [scoreVec, normalizeVec, scoreP]

/-- C8: on a document whose bag-of-words image is nonempty,
`choose_best_label` computes the probability vector through `score` —
a pure function of the read-only statistics, so nothing is mutated —
and returns `(np.argmax(p), max(p))`: the returned index is in range,
its entry is the returned probability, that probability is maximal,
and every entry before the returned index is strictly smaller, so ties
are broken by the lowest label index. -/
theorem choose_best_label_spec (d2b : List String → Doc) (lg ex : Rat → Rat)
    (alpha beta : Rat) (K V D : Nat) (m_z n_z : List Int) (n_z_w : List (List Int))
    (doc : List String) (h1 : d2b doc ≠ []) (hK : 0 < K) :
    choose_best_label d2b lg ex alpha beta K V D m_z n_z n_z_w doc
      = .ok (np_argmax (scoreVec lg ex alpha beta K V D m_z n_z n_z_w (d2b doc)),
             pyMax (scoreVec lg ex alpha beta K V D m_z n_z n_z_w (d2b doc))) ∧
    np_argmax (scoreVec lg ex alpha beta K V D m_z n_z n_z_w (d2b doc))
      < (scoreVec lg ex alpha beta K V D m_z n_z n_z_w (d2b doc)).length ∧
    (scoreVec lg ex alpha beta K V D m_z n_z n_z_w (d2b doc)).getD
        (np_argmax (scoreVec lg ex alpha beta K V D m_z n_z n_z_w (d2b doc))) 0
      = pyMax (scoreVec lg ex alpha beta K V D m_z n_z n_z_w (d2b doc)) ∧
    (∀ x ∈ scoreVec lg ex alpha beta K V D m_z n_z n_z_w (d2b doc),
      x ≤ pyMax (scoreVec lg ex alpha beta K V D m_z n_z n_z_w (d2b doc))) ∧
    (∀ k, k < np_argmax (scoreVec lg ex alpha beta K V D m_z n_z n_z_w (d2b doc)) →
      (scoreVec lg ex alpha beta K V D m_z n_z n_z_w (d2b doc)).getD k 0
        < pyMax (scoreVec lg ex alpha beta K V D m_z n_z n_z_w (d2b doc))) := by
  have hne : (d2b doc).isEmpty = false := by
    cases hd : d2b doc with
    | nil => exact absurd hd h1
    | cons a as => rfl
  have hnil : scoreVec lg ex alpha beta K V D m_z n_z n_z_w (d2b doc) ≠ [] := by
    intro hcon
    have := scoreVec_length lg ex alpha beta K V D m_z n_z n_z_w (d2b doc)
    rw [hcon] at this
    simp at this
    omega
  obtain ⟨g1, g2, g3, g4⟩ := np_argmax_spec _ hnil
  exact ⟨by simp [choose_best_label, score, hne], g1, g2, g3, g4⟩

theorem choose_best_label_spec_witness :
    ((fun _ => [(0, 1)] : List String → Doc) [] ≠ []) ∧ 0 < 2 ∧
    (choose_best_label (fun _ => [(0, 1)]) (fun _ => 0) (fun _ => 1) 1 1 2 1 1
        [0, 0] [0, 0] [[0], [0]] []
      = .ok (np_argmax (scoreVec (fun _ => 0) (fun _ => 1) 1 1 2 1 1 [0, 0] [0, 0] [[0], [0]] [(0, 1)]),
             pyMax (scoreVec (fun _ => 0) (fun _ => 1) 1 1 2 1 1 [0, 0] [0, 0] [[0], [0]] [(0, 1)])) ∧
     np_argmax (scoreVec (fun _ => 0) (fun _ => 1) 1 1 2 1 1 [0, 0] [0, 0] [[0], [0]] [(0, 1)])
       < (scoreVec (fun _ => 0) (fun _ => 1) 1 1 2 1 1 [0, 0] [0, 0] [[0], [0]] [(0, 1)]).length ∧
     (scoreVec (fun _ => 0) (fun _ => 1) 1 1 2 1 1 [0, 0] [0, 0] [[0], [0]] [(0, 1)]).getD
         (np_argmax (scoreVec (fun _ => 0) (fun _ => 1) 1 1 2 1 1 [0, 0] [0, 0] [[0], [0]] [(0, 1)])) 0
       = pyMax (scoreVec (fun _ => 0) (fun _ => 1) 1 1 2 1 1 [0, 0] [0, 0] [[0], [0]] [(0, 1)]) ∧
     (∀ x ∈ scoreVec (fun _ => 0) (fun _ => 1) 1 1 2 1 1 [0, 0] [0, 0] [[0], [0]] [(0, 1)],
       x ≤ pyMax (scoreVec (fun _ => 0) (fun _ => 1) 1 1 2 1 1 [0, 0] [0, 0] [[0], [0]] [(0, 1)])) ∧
     (∀ k, k < np_argmax (scoreVec (fun _ => 0) (fun _ => 1) 1 1 2 1 1 [0, 0] [0, 0] [[0], [0]] [(0, 1)]) →
       (scoreVec (fun _ => 0) (fun _ => 1) 1 1 2 1 1 [0, 0] [0, 0] [[0], [0]] [(0, 1)]).getD k 0
         < pyMax (scoreVec (fun _ => 0) (fun _ => 1) 1 1 2 1 1 [0, 0] [0, 0] [[0], [0]] [(0, 1)]))) :=
  ⟨by simp, by decide,
   choose_best_label_spec (fun _ => [(0, 1)]) (fun _ => 0) (fun _ => 1) 1 1 2 1 1
     [0, 0] [0, 0] [[0], [0]] [] (by simp) (by decide)⟩

/-- C9: on every successful `fit` run with a valid draw oracle,
(1) initialization leaves `sum(doc_count)` equal to the number of
documents and assigns every document one label below `K`; (2) every
Gibbs pass preserves `sum(doc_count)`, the assignment's length and the
label range, so the invariants hold after every pass; and (3) the final
state satisfies `sum(doc_count) = D`, and `fit` returns exactly the
assignment `d_z` — one label in `[0, K)` per document, in corpus
order. -/
theorem fit_assignment_invariants (K V n_iters : Nat) (draws : Nat → Nat)
    (corpus : List Doc) (r : FitResult)
    (hok : fitMGP K V n_iters draws corpus = .ok r)
    (hdr : ∀ t, draws t < K) :
    (∀ st1 t1, initClusters draws 0 corpus (fitInitState K V) = .ok (st1, t1) →
      st1.m_z.sum = (corpus.length : Int) ∧ st1.d_z.length = corpus.length ∧
      ∀ l ∈ st1.d_z, l < K) ∧
    (∀ docs t i tf st st' tf' t',
      runPassAux draws docs t i st tf = .ok (st', tf', t') →
      st.m_z.length = K → (∀ l ∈ st.d_z, l < K) →
      st'.m_z.sum = st.m_z.sum ∧ st'.d_z.length = st.d_z.length ∧
      ∀ l ∈ st'.d_z, l < K) ∧
    r.state.m_z.sum = (corpus.length : Int) ∧
    r.labels = r.state.d_z ∧
    r.labels.length = corpus.length ∧
    (∀ l ∈ r.labels, l < K) := by
  refine ⟨?_, ?_, ?_⟩
  · intro st1 t1 hinit
    obtain ⟨h1, h2, h3, h4⟩ := initClusters_inv draws K hdr corpus 0 _ _ _ hinit
      (by simp [fitInitState]) (by simp [fitInitState])
    refine ⟨?_, ?_, h4⟩
    · rw [h2]; simp [fitInitState]
    · rw [h3]; simp [fitInitState]
  · intro docs t i tf st st' tf' t' hpass hlen hdz
    obtain ⟨q1, q2, q3, q4⟩ := runPassAux_inv draws K hdr docs _ _ _ _ _ _ _ hpass hlen hdz
    exact ⟨q2, q3, q4⟩
  · unfold fitMGP at hok
    cases hinit : initClusters draws 0 corpus (fitInitState K V) with
    | error e => rw [hinit] at hok; simp at hok
    | ok res =>
      obtain ⟨st1, t1⟩ := res
      rw [hinit] at hok
      simp only at hok
      cases hloop : gibbsLoop draws corpus t1 0 n_iters st1 K with
      | error e => rw [hloop] at hok; simp at hok
      | ok res2 =>
        obtain ⟨st2, tr⟩ := res2
        rw [hloop] at hok
        simp only at hok
        cases hok
        obtain ⟨i1, i2, i3, i4⟩ := initClusters_inv draws K hdr corpus 0 _ _ _ hinit
          (by simp [fitInitState]) (by simp [fitInitState])
        obtain ⟨g1, g2, g3, g4⟩ := gibbsLoop_inv draws K hdr corpus n_iters _ _ _ _ _ _ hloop i1 i4
        refine ⟨?_, rfl, ?_, g4⟩
        · rw [g2, i2]; simp [fitInitState]
        · show st2.d_z.length = corpus.length
          rw [g3, i3]; simp [fitInitState]

theorem fit_assignment_invariants_witness :
    (∀ st1 t1, initClusters (fun _ => 0 : Nat → Nat) 0 [[(0, 1)]] (fitInitState 1 1)
        = .ok (st1, t1) →
      st1.m_z.sum = (([[(0, 1)]] : List Doc).length : Int) ∧
      st1.d_z.length = ([[(0, 1)]] : List Doc).length ∧
      ∀ l ∈ st1.d_z, l < 1) ∧
    (∀ docs t i tf st st' tf' t',
      runPassAux (fun _ => 0 : Nat → Nat) docs t i st tf = .ok (st', tf', t') →
      st.m_z.length = 1 → (∀ l ∈ st.d_z, l < 1) →
      st'.m_z.sum = st.m_z.sum ∧ st'.d_z.length = st.d_z.length ∧
      ∀ l ∈ st'.d_z, l < 1) ∧
    ([1] : List Int).sum = (([[(0, 1)]] : List Doc).length : Int) ∧
    ([0] : List Nat) = [0] ∧
    ([0] : List Nat).length = ([[(0, 1)]] : List Doc).length ∧
    (∀ l ∈ ([0] : List Nat), l < 1) :=
  fit_assignment_invariants 1 1 1 (fun _ => 0) [[(0, 1)]]
    ⟨[0], ⟨[1], [1], [[1]], [0]⟩, [(0, 1)]⟩ rfl (fun _ => Nat.zero_lt_one)

/-- C10: the empty bag-of-words branch of the interface is reachable
and unhandled: `score` on an empty document fails with the unpacking
error of `idx, cnt = zip(*doc)` (line 227); `fit` on any corpus
containing an empty document fails with the same error during
initialization (line 161); and `choose_best_label` on a document whose
tokens are all unseen — so `doc2bow` drops every token and yields the
empty list — fails the same way instead of returning a label. -/
theorem empty_document_unpack_error :
    (∀ (lg ex : Rat → Rat) (alpha beta : Rat) (K V D : Nat)
       (m_z n_z : List Int) (n_z_w : List (List Int)),
       score lg ex alpha beta K V D m_z n_z n_z_w [] = .error .unpackError) ∧
    (∀ (K V n_iters : Nat) (draws : Nat → Nat) (pre post : List Doc),
       fitMGP K V n_iters draws (pre ++ ([] : Doc) :: post) = .error .unpackError) ∧
    (∀ (d2b : List String → Doc) (lg ex : Rat → Rat) (alpha beta : Rat)
       (K V D : Nat) (m_z n_z : List Int) (n_z_w : List (List Int))
       (doc : List String), d2b doc = [] →
       choose_best_label d2b lg ex alpha beta K V D m_z n_z n_z_w doc
         = .error .unpackError) := by
  have hinit : ∀ (draws : Nat → Nat) (post pre : List Doc) (t : Nat) (st : FitState),
      initClusters draws t (pre ++ ([] : Doc) :: post) st = .error .unpackError := by
    intro draws post pre
    induction pre with
    | nil => intro t st; simp [initClusters]
    | cons doc rest ih =>
      intro t st
      simp only [List.cons_append, initClusters]
      by_cases hemp : doc.isEmpty
      · rw [if_pos hemp]
      · rw [if_neg hemp]; exact ih _ _
  refine ⟨?_, ?_, ?_⟩
  · intro lg ex alpha beta K V D m_z n_z n_z_w
    rfl
  · intro K V n_iters draws pre post
    unfold fitMGP
    rw [hinit draws post pre 0 (fitInitState K V)]
  · intro d2b lg ex alpha beta K V D m_z n_z n_z_w doc hd
    simp [choose_best_label, score, hd]

theorem empty_document_unpack_error_witness :
    (score (fun x => x) (fun x => x) 1 1 1 1 1 [0] [0] [[0]] []
       = .error .unpackError) ∧
    (fitMGP 1 1 1 (fun _ => 0) ([] ++ ([] : Doc) :: [])
       = .error .unpackError) ∧
    ((fun _ => [] : List String → Doc) [] = []) ∧
    (choose_best_label (fun _ => []) (fun x => x) (fun x => x) 1 1 1 1 1 [0] [0] [[0]] []
       = .error .unpackError) :=
  ⟨empty_document_unpack_error.1 (fun x => x) (fun x => x) 1 1 1 1 1 [0] [0] [[0]],
   empty_document_unpack_error.2.1 1 1 1 (fun _ => 0) [] [],
   rfl,
   empty_document_unpack_error.2.2 (fun _ => []) (fun x => x) (fun x => x) 1 1 1 1 1
     [0] [0] [[0]] [] rfl⟩
